import Mathlib

/-!
Verification of the waysay surface render/interaction engine.

The definitions below are a shallow embedding of `src/main.rs` and
`src/args.rs`:

* `feed` / `takeEvent` embed the render-event coalescing closure installed
  with `layer_surface.quick_assign` (main.rs lines 375-394) and the
  destructive `Cell::take` read.
* `Surface`, `handle_events`, `draw`, `layoutRun`, `process_click`,
  `resolveClick`, `handle_pointer_event` embed the `Surface` struct and its
  methods (main.rs lines 56-307).  Machine `usize` arithmetic is `Nat`
  with wrapping subtraction modulo `2 ^ 64`; the `f64`/`f32` values that
  the program only adds, subtracts, halves and compares are embedded as
  exact rationals; the font-metric text width returned by
  `andrew::text::Text::get_width` is an oracle parameter
  `measure : ℚ → String → ℕ` (text height, label).
* `parse` embeds `args::parse` (args.rs lines 15-73), and `mainConfig`
  the start of `main` (main.rs lines 309-327).
-/

namespace Waysay

/-- main.rs line 185 (`draw`): `let vertical_padding = 2;`. -/
def vertical_padding : ℕ := 2

/-- main.rs line 186 (`draw`): `let horizontal_padding = 10;`. -/
def horizontal_padding : ℕ := 10

/-- main.rs line 187 (`draw`): `let max_text_size = 16.;`. -/
def max_text_size : ℚ := 16

/-- Modulus of the machine `usize` type (64-bit target). -/
def USIZE : ℕ := 2 ^ 64

/-- Wrapping `usize` subtraction: `(a - b) mod 2^64`. -/
def wrapSub (a b : ℕ) : ℕ := (a % USIZE + (USIZE - b % USIZE)) % USIZE

/-- main.rs lines 56-60: the `RenderEvent` enum. -/
inductive RenderEvent where
  | Configure (width height : ℕ)
  | Closed
deriving DecidableEq, Repr

/-- The render-event coalescer: one step of the closure registered with
`layer_surface.quick_assign` (main.rs lines 375-394).  `pending` is the
content of the `next_render_event` cell, `ev` the freshly delivered
notification; the result is the new cell content.  A `Closed` notification
always stores `Closed`; a `Configure` notification is stored only when the
pending event is not `Closed` (the `if next != Some(RenderEvent::Closed)`
guard), otherwise the catch-all arm leaves the cell untouched. -/
def feed (pending : Option RenderEvent) (ev : RenderEvent) : Option RenderEvent :=
  match ev with
  | RenderEvent.Closed => some RenderEvent.Closed
  | RenderEvent.Configure w h =>
      if pending = some RenderEvent.Closed then pending
      else some (RenderEvent.Configure w h)

/-- Feeding a whole sequence of notifications into the coalescer cell. -/
def feedAll (pending : Option RenderEvent) (l : List RenderEvent) : Option RenderEvent :=
  l.foldl feed pending

/-- `self.next_render_event.take()` (main.rs line 124): destructive read of
the cell, returning the pending event and the emptied cell. -/
def takeEvent (pending : Option RenderEvent) :
    Option RenderEvent × Option RenderEvent :=
  (pending, none)

lemma feed_closed_pending (ev : RenderEvent) :
    feed (some RenderEvent.Closed) ev = some RenderEvent.Closed := by
  cases ev <;> simp [feed]

lemma feedAll_closed_pending (l : List RenderEvent) :
    feedAll (some RenderEvent.Closed) l = some RenderEvent.Closed := by
  induction l with
  | nil => rfl
  | cons a rest ih =>
      simpa [feedAll, feed_closed_pending] using ih

lemma feedAll_of_mem_closed (l : List RenderEvent)
    (h : RenderEvent.Closed ∈ l) (p : Option RenderEvent) :
    feedAll p l = some RenderEvent.Closed := by
  induction l generalizing p with
  | nil => cases h
  | cons a rest ih =>
      rcases List.mem_cons.mp h with ha | hrest
      · subst ha
        have : feed p RenderEvent.Closed = some RenderEvent.Closed := by
          simp [feed]
        simpa [feedAll, this] using feedAll_closed_pending rest
      · simpa [feedAll] using ih hrest (feed p a)

lemma feedAll_eq_closed (l : List RenderEvent) (p : Option RenderEvent)
    (h : feedAll p l = some RenderEvent.Closed) :
    RenderEvent.Closed ∈ l ∨ p = some RenderEvent.Closed := by
  induction l generalizing p with
  | nil => exact Or.inr h
  | cons a rest ih =>
      have h' : feedAll (feed p a) rest = some RenderEvent.Closed := by
        simpa [feedAll] using h
      rcases ih (feed p a) h' with hm | hfeed
      · exact Or.inl (List.mem_cons_of_mem _ hm)
      · cases a with
        | Closed => exact Or.inl (List.mem_cons_self _ _)
        | Configure w h' =>
            by_cases hp : p = some RenderEvent.Closed
            · exact Or.inr hp
            · simp [feed, hp] at hfeed

lemma feedAll_no_closed (l : List RenderEvent)
    (h : RenderEvent.Closed ∉ l) :
    feedAll none l = l.getLast? := by
  induction l using List.reverseRecOn with
  | nil => rfl
  | append_singleton l a ih =>
      have hl : RenderEvent.Closed ∉ l := fun hm => h (by simp [hm])
      have ha : a ≠ RenderEvent.Closed := fun hm => h (by simp [hm])
      have hne : feedAll none l ≠ some RenderEvent.Closed := by
        intro hc
        rcases feedAll_eq_closed l none hc with hm | hp
        · exact hl hm
        · exact Option.noConfusion hp
      have hstep : feedAll none (l ++ [a]) = feed (feedAll none l) a := by
        simp [feedAll]
      cases a with
      | Closed => exact absurd rfl ha
      | Configure w hgt =>
          rw [hstep]
          simp [feed, hne]

/-- C1: the render-event coalescer keeps at most one pending event and obeys
the priority rule.  Feeding `Configure A` then `Configure B` into an empty
cell and reading yields exactly `Configure B`; after `Configure A` then
`Closed`, a later `Configure C` is dropped and reading yields `Closed`;
reading is destructive (the cell is cleared).  For every sequence of
notifications: if any `Closed` is fed the pending event is `Closed`
(regardless of the initial cell content), and a closed-free sequence leaves
exactly its last `Configure` pending. -/
theorem coalescer_priority :
    (∀ wA hA wB hB : ℕ,
      takeEvent (feed (feed none (RenderEvent.Configure wA hA))
          (RenderEvent.Configure wB hB)) =
        (some (RenderEvent.Configure wB hB), none))
    ∧ (∀ wA hA wC hC : ℕ,
      feed (feed (feed none (RenderEvent.Configure wA hA)) RenderEvent.Closed)
          (RenderEvent.Configure wC hC) = some RenderEvent.Closed
      ∧ takeEvent (feed (feed (feed none (RenderEvent.Configure wA hA))
            RenderEvent.Closed) (RenderEvent.Configure wC hC)) =
          (some RenderEvent.Closed, none))
    ∧ (∀ p : Option RenderEvent, (takeEvent p).2 = none)
    ∧ (∀ l : List RenderEvent, RenderEvent.Closed ∈ l →
        ∀ p, feedAll p l = some RenderEvent.Closed)
    ∧ (∀ l : List RenderEvent, RenderEvent.Closed ∉ l →
        feedAll none l = l.getLast?) := by
  refine ⟨?_, ?_, ?_, ?_, ?_⟩
  · intro wA hA wB hB
    simp [feed, takeEvent]
  · intro wA hA wC hC
    constructor <;> simp [feed, takeEvent]
  · intro p
    rfl
  · intro l hmem p
    exact feedAll_of_mem_closed l hmem p
  · intro l hmem
    exact feedAll_no_closed l hmem

/-- Witness for `coalescer_priority` at concrete inputs: a sequence
containing `Closed` coalesces to `Closed` even over a nonempty initial
cell, and a closed-free sequence leaves its last configure pending. -/
theorem coalescer_priority_witness :
    feedAll (some (RenderEvent.Configure 1 2))
        [RenderEvent.Configure 3 4, RenderEvent.Closed] = some RenderEvent.Closed
    ∧ feedAll none [RenderEvent.Configure 3 4, RenderEvent.Configure 5 6] =
        some (RenderEvent.Configure 5 6) := by
  constructor
  · exact coalescer_priority.2.2.2.1
      [RenderEvent.Configure 3 4, RenderEvent.Closed] (by decide)
      (some (RenderEvent.Configure 1 2))
  · have h := coalescer_priority.2.2.2.2
      [RenderEvent.Configure 3 4, RenderEvent.Configure 5 6] (by decide)
    simpa using h

/-- args.rs lines 9-13: one `-b TEXT ACTION` button. -/
structure ArgButton where
  text : String
  action : String
deriving DecidableEq, Repr

/-- args.rs lines 1-7: the parsed command-line configuration. -/
structure Args where
  message : String
  buttons : List ArgButton
  message_type : String
  detailed_message : Bool
deriving DecidableEq, Repr

/-- main.rs lines 81-87: the `ClickHandler` enum. -/
inductive ClickHandler where
  | Exit
  | RunCommand (cmd : String)
deriving DecidableEq, Repr

/-- main.rs lines 75-79: a clickable rectangle bound to an action. -/
structure ClickTarget where
  position : ℕ × ℕ
  size : ℕ × ℕ
  handler : ClickHandler
deriving DecidableEq, Repr

/-- main.rs lines 62-73: the per-surface state.  The `pools` handle and the
raw `font_data` bytes are external resources; their observable behaviour
enters the model as the `poolAvail` flag and the `measure` oracle passed to
`draw`. -/
structure Surface where
  args : Args
  next_render_event : Option RenderEvent
  dimensions : ℕ × ℕ
  pointer_location : Option (ℚ × ℚ)
  should_exit : Bool
  click_targets : List ClickTarget
deriving DecidableEq, Repr

/-- main.rs lines 188-195 (`draw`): the text height is `height/2` capped at
`max_text_size`.  This single definition serves both presentation modes,
because bar mode (line 450) and window mode (line 621) call the same
`Surface::draw`. -/
def textHeight (height : ℕ) : ℚ :=
  let h : ℚ := (height : ℚ) / 2
  if h > max_text_size then max_text_size else h

/-- Rust `as usize` cast of a nonnegative-or-negative float: saturates at 0
below, truncates toward zero otherwise. -/
def f32ToUsize (q : ℚ) : ℕ := if q < 0 then 0 else q.floor.toNat

/-- The geometry one `draw_button` call produces: the button's block
rectangle, the label's glyph origin, and the bound handler. -/
structure LaidButton where
  block_pos : ℕ × ℕ
  size : ℕ × ℕ
  text_pos : ℕ × ℕ
  handler : ClickHandler
deriving DecidableEq, Repr

/-- main.rs lines 223-244: the `draw_button` closure.  `right_most_pixel`
is the mutable cursor; subtractions are wrapping `usize` arithmetic; the
text's vertical position is `((block_height as f32 - text_h) / 2.) as
usize`, computed from the canvas top (not offset by the block's own top
edge `vertical_padding`). -/
def drawButton (height : ℕ) (text_h : ℚ) (measure : ℚ → String → ℕ)
    (right_most_pixel : ℕ) (label : String) (handler : ClickHandler) :
    LaidButton :=
  let text_width := measure text_h label
  let button_width := text_width + 2 * horizontal_padding
  let block_height := wrapSub height (vertical_padding * 2)
  let block_pos :=
    (wrapSub (wrapSub right_most_pixel button_width) horizontal_padding,
     vertical_padding)
  let text_pos :=
    (block_pos.1 + horizontal_padding,
     f32ToUsize (((block_height : ℚ) - text_h) / 2))
  ⟨block_pos, (button_width, block_height), text_pos, handler⟩

/-- main.rs lines 246-262: the sequence of `draw_button` calls in `draw`,
one per item, each advancing the cursor to the block it just placed
(`right_most_pixel = block_pos.0`). -/
def layoutRun (height : ℕ) (text_h : ℚ) (measure : ℚ → String → ℕ) :
    ℕ → List (String × ClickHandler) → List LaidButton
  | _, [] => []
  | rmp, item :: rest =>
      let b := drawButton height text_h measure rmp item.1 item.2
      b :: layoutRun height text_h measure b.block_pos.1 rest

/-- The item list `draw` lays out: the dismiss control `"x"` bound to
`Exit` first (main.rs lines 246-252), then the configured buttons in
original order, each bound to `RunCommand` of its action (lines 254-262). -/
def drawItems (args : Args) : List (String × ClickHandler) :=
  ("x", ClickHandler.Exit) ::
    args.buttons.map (fun b => (b.text, ClickHandler.RunCommand b.action))

/-- The click targets one `draw` pass pushes onto the registry: position
and size of each laid-out block with its handler. -/
def newTargets (measure : ℚ → String → ℕ) (s : Surface) : List ClickTarget :=
  (layoutRun s.dimensions.2 (textHeight s.dimensions.2) measure s.dimensions.1
      (drawItems s.args)).map
    (fun b => ⟨b.block_pos, b.size, b.handler⟩)

/-- main.rs line 280: the buffer descriptor handed to the compositor,
`pool.buffer(0, width, height, stride, Format::Argb8888)` with
`stride = 4 * width`. -/
structure BufferDesc where
  width : ℕ
  height : ℕ
  stride : ℕ
deriving DecidableEq, Repr

/-- main.rs lines 175-288: `Surface::draw`.  If no pool buffer is free the
draw is skipped entirely (lines 176-179).  Otherwise the pass lays out the
dismiss control and the buttons, appends the resulting click targets to the
registry (`self.click_targets.push`, lines 252 and 261), and publishes an
ARGB buffer of the current dimensions.  The pixel writes themselves touch
no `Surface` state. -/
def draw (poolAvail : Bool) (measure : ℚ → String → ℕ) (s : Surface) :
    Surface × Option BufferDesc :=
  if poolAvail then
    ({ s with click_targets := s.click_targets ++ newTargets measure s },
     some ⟨s.dimensions.1, s.dimensions.2, 4 * s.dimensions.1⟩)
  else (s, none)

/-- main.rs lines 123-133: `Surface::handle_events`.  The pending render
event is read destructively; `Closed` requests teardown without drawing,
`Configure` stores the new dimensions and draws, and with nothing pending
the user-requested exit flag is returned.  The published buffer (a side
effect of `draw`) is exposed as the third component. -/
def handle_events (measure : ℚ → String → ℕ) (poolAvail : Bool)
    (s : Surface) : Surface × Bool × Option BufferDesc :=
  match s.next_render_event with
  | some RenderEvent.Closed => ({ s with next_render_event := none }, true, none)
  | some (RenderEvent.Configure w h) =>
      ((draw poolAvail measure
          { s with next_render_event := none, dimensions := (w, h) }).1,
       false,
       (draw poolAvail measure
          { s with next_render_event := none, dimensions := (w, h) }).2)
  | none => (s, s.should_exit, none)

/-- C2: `handle_events` returns true and performs no draw (registry,
dimensions and exit flag untouched, nothing published) when `Closed` is
pending; when `Configure (w, h)` is pending it stores `(w, h)` as the
current dimensions, runs the layout/rasterize/publish pipeline (appending
the computed targets and publishing a buffer of the new size whenever a
pool buffer is free), and returns false; with nothing pending it returns
the current `should_exit` flag and leaves the state unchanged. -/
theorem handle_events_spec (s : Surface) (measure : ℚ → String → ℕ)
    (pa : Bool) :
    (s.next_render_event = some RenderEvent.Closed →
      handle_events measure pa s =
        ({ s with next_render_event := none }, true, none))
    ∧ (∀ w h, s.next_render_event = some (RenderEvent.Configure w h) →
        handle_events measure pa s =
          ((draw pa measure
              { s with next_render_event := none, dimensions := (w, h) }).1,
           false,
           (draw pa measure
              { s with next_render_event := none, dimensions := (w, h) }).2)
        ∧ (draw pa measure
            { s with next_render_event := none, dimensions := (w, h) }).1.dimensions
            = (w, h)
        ∧ (pa = true →
            (draw pa measure
                { s with next_render_event := none, dimensions := (w, h) }).1.click_targets
              = s.click_targets ++
                  newTargets measure
                    { s with next_render_event := none, dimensions := (w, h) }
            ∧ (draw pa measure
                { s with next_render_event := none, dimensions := (w, h) }).2
              = some ⟨w, h, 4 * w⟩))
    ∧ (s.next_render_event = none →
        handle_events measure pa s = (s, s.should_exit, none)) := by
  refine ⟨?_, ?_, ?_⟩
  · intro hev
    simp [handle_events, hev]
  · intro w h hev
    refine ⟨by simp [handle_events, hev], ?_, ?_⟩
    · cases pa <;> simp [draw]
    · intro hpa
      subst hpa
      simp [draw]
  · intro hev
    simp [handle_events, hev]

/-- Witness for `handle_events_spec`: a concrete surface exercising all
three branches (and the pool-available sub-branch). -/
theorem handle_events_spec_witness :
    handle_events (fun _ _ => 10) true
        { args := ⟨"m", [], "error", false⟩,
          next_render_event := some RenderEvent.Closed,
          dimensions := (0, 0), pointer_location := none,
          should_exit := false, click_targets := [] } =
      ({ args := ⟨"m", [], "error", false⟩,
         next_render_event := none,
         dimensions := (0, 0), pointer_location := none,
         should_exit := false, click_targets := [] }, true, none)
    ∧ (draw true (fun _ _ => 10)
        { args := ⟨"m", [], "error", false⟩,
          next_render_event := none,
          dimensions := (400, 32), pointer_location := none,
          should_exit := false, click_targets := [] }).1.dimensions = (400, 32)
    ∧ handle_events (fun _ _ => 10) true
        { args := ⟨"m", [], "error", false⟩,
          next_render_event := none,
          dimensions := (0, 0), pointer_location := none,
          should_exit := true, click_targets := [] } =
      ({ args := ⟨"m", [], "error", false⟩,
         next_render_event := none,
         dimensions := (0, 0), pointer_location := none,
         should_exit := true, click_targets := [] }, true, none) := by
  refine ⟨?_, ?_, ?_⟩
  · exact (handle_events_spec
      { args := ⟨"m", [], "error", false⟩,
        next_render_event := some RenderEvent.Closed,
        dimensions := (0, 0), pointer_location := none,
        should_exit := false, click_targets := [] }
      (fun _ _ => 10) true).1 rfl
  · exact ((handle_events_spec
      { args := ⟨"m", [], "error", false⟩,
        next_render_event := some (RenderEvent.Configure 400 32),
        dimensions := (0, 0), pointer_location := none,
        should_exit := false, click_targets := [] }
      (fun _ _ => 10) true).2.1 400 32 rfl).2.1
  · exact (handle_events_spec
      { args := ⟨"m", [], "error", false⟩,
        next_render_event := none,
        dimensions := (0, 0), pointer_location := none,
        should_exit := true, click_targets := [] }
      (fun _ _ => 10) true).2.2 rfl

/-- main.rs lines 291-307: `ClickTarget::process_click`.  The stored
`usize` position and size are cast to `f64` and compared against the click
coordinates with `>=` on the near edges and `<` on the far edges. -/
def process_click (t : ClickTarget) (click_position : ℚ × ℚ) :
    Option ClickHandler :=
  if (t.position.1 : ℚ) ≤ click_position.1
      ∧ click_position.1 < (t.position.1 : ℚ) + (t.size.1 : ℚ)
      ∧ (t.position.2 : ℚ) ≤ click_position.2
      ∧ click_position.2 < (t.position.2 : ℚ) + (t.size.2 : ℚ) then
    some t.handler
  else none

/-- One iteration of the dispatch loop in `handle_pointer_event`
(main.rs lines 151-158): the pointer location is checked inside the loop,
and a match overwrites the accumulator. -/
def clickStep (loc : Option (ℚ × ℚ)) (acc : Option ClickHandler)
    (t : ClickTarget) : Option ClickHandler :=
  match loc with
  | some p =>
      match process_click t p with
      | some h => some h
      | none => acc
  | none => acc

/-- The full dispatch scan over the registry (main.rs lines 151-158):
`matching_click_handler` starts as `None` and is overwritten by every
matching target, so the last match in iteration order wins. -/
def resolveClick (loc : Option (ℚ × ℚ)) (targets : List ClickTarget) :
    Option ClickHandler :=
  targets.foldl (clickStep loc) none

/-- The pointer events `handle_pointer_event` distinguishes
(main.rs lines 136-171): `Enter`/`Motion` with surface coordinates, a
button press, and everything else (including button releases). -/
inductive PointerEvent where
  | enter (x y : ℚ)
  | motion (x y : ℚ)
  | buttonPressed
  | other
deriving DecidableEq

/-- main.rs lines 135-173: `Surface::handle_pointer_event`.  `Enter` and
`Motion` update the remembered pointer location; a button press resolves
the click against the registry and either sets `should_exit` (handler
`Exit`) or spawns `/bin/sh -c cmd` (handler `RunCommand cmd`), returned
here as the spawned argument vector.  `spawnOk` is the outcome of
`Command::spawn`; the source only logs a failure (line 165), so no state
depends on it. -/
def handle_pointer_event (_spawnOk : Bool) (s : Surface) (e : PointerEvent) :
    Surface × Option (List String) :=
  match e with
  | PointerEvent.enter x y => ({ s with pointer_location := some (x, y) }, none)
  | PointerEvent.motion x y => ({ s with pointer_location := some (x, y) }, none)
  | PointerEvent.buttonPressed =>
      match resolveClick s.pointer_location s.click_targets with
      | some ClickHandler.Exit => ({ s with should_exit := true }, none)
      | some (ClickHandler.RunCommand cmd) => (s, some ["/bin/sh", "-c", cmd])
      | none => (s, none)
  | PointerEvent.other => (s, none)

lemma process_click_eq_some (t : ClickTarget) (p : ℚ × ℚ)
    (h : ClickHandler) (hp : process_click t p = some h) : h = t.handler := by
  unfold process_click at hp
  split at hp
  · exact (Option.some_inj.mp hp).symm
  · exact Option.noConfusion hp

/-- C4: `process_click` returns the bound handler exactly when the click
lies in the half-open box `[pos.x, pos.x + size.x) × [pos.y, pos.y +
size.y)`, and returns nothing otherwise; the top-left corner of a target
with positive extent matches, while the points `(x + w, y)` and
`(x, y + h)` do not. -/
theorem process_click_spec (t : ClickTarget) (p : ℚ × ℚ) :
    (process_click t p = some t.handler ↔
      ((t.position.1 : ℚ) ≤ p.1 ∧ p.1 < (t.position.1 : ℚ) + (t.size.1 : ℚ)
        ∧ (t.position.2 : ℚ) ≤ p.2 ∧ p.2 < (t.position.2 : ℚ) + (t.size.2 : ℚ)))
    ∧ (process_click t p = some t.handler ∨ process_click t p = none)
    ∧ (0 < t.size.1 → 0 < t.size.2 →
        process_click t ((t.position.1 : ℚ), (t.position.2 : ℚ)) =
          some t.handler)
    ∧ process_click t ((t.position.1 : ℚ) + (t.size.1 : ℚ), (t.position.2 : ℚ))
        = none
    ∧ process_click t ((t.position.1 : ℚ), (t.position.2 : ℚ) + (t.size.2 : ℚ))
        = none := by
  refine ⟨?_, ?_, ?_, ?_, ?_⟩
  · unfold process_click
    split_ifs with h
    · simpa using h
    · simpa using h
  · unfold process_click
    split_ifs
    · exact Or.inl rfl
    · exact Or.inr rfl
  · intro hw hh
    unfold process_click
    have hw' : (0 : ℚ) < (t.size.1 : ℚ) := by exact_mod_cast hw
    have hh' : (0 : ℚ) < (t.size.2 : ℚ) := by exact_mod_cast hh
    rw [if_pos]
    exact ⟨le_refl _, by linarith, le_refl _, by linarith⟩
  · unfold process_click
    rw [if_neg]
    intro hcond
    exact absurd hcond.2.1 (lt_irrefl _)
  · unfold process_click
    rw [if_neg]
    intro hcond
    exact absurd hcond.2.2.2 (lt_irrefl _)

/-- Witness for `process_click_spec` at a concrete target and click: the
top-left corner of a 3×4 target at (1, 2) resolves to its handler. -/
theorem process_click_spec_witness :
    process_click ⟨(1, 2), (3, 4), ClickHandler.Exit⟩ ((1 : ℚ), (2 : ℚ)) =
      some ClickHandler.Exit := by
  exact (process_click_spec ⟨(1, 2), (3, 4), ClickHandler.Exit⟩
    ((1 : ℚ), (2 : ℚ))).2.2.1 (by decide) (by decide)

lemma foldl_clickStep_none (ts : List ClickTarget)
    (acc : Option ClickHandler) :
    ts.foldl (clickStep none) acc = acc := by
  induction ts generalizing acc with
  | nil => rfl
  | cons t ts ih => simpa [clickStep] using ih acc

lemma foldl_clickStep_some (p : ℚ × ℚ) (ts : List ClickTarget)
    (acc : Option ClickHandler) :
    ts.foldl (clickStep (some p)) acc =
      match (ts.filter fun t => (process_click t p).isSome).getLast? with
      | some t => some t.handler
      | none => acc := by
  induction ts generalizing acc with
  | nil => rfl
  | cons t ts ih =>
      by_cases hm : (process_click t p).isSome
      · obtain ⟨h, hh⟩ := Option.isSome_iff_exists.mp hm
        have hht := process_click_eq_some t p h hh
        subst hht
        have hstep : clickStep (some p) acc t = some t.handler := by
          simp [clickStep, hh]
        cases hfilter : ts.filter (fun t => (process_click t p).isSome) with
        | nil =>
            simp only [List.foldl_cons, hstep, List.filter_cons, hm,
              ite_true, hfilter]
            rw [ih (some t.handler)]
            simp [hfilter]
        | cons u us =>
            have hsome : ((u :: us).getLast?).isSome := by
              simp [List.getLast?_isSome]
            obtain ⟨v, hv⟩ := Option.isSome_iff_exists.mp hsome
            simp only [List.foldl_cons, hstep, List.filter_cons, hm,
              ite_true, hfilter]
            rw [ih (some t.handler)]
            simp [hfilter, hv]
      · have hstep : clickStep (some p) acc t = acc := by
          rcases hnone : process_click t p with _ | h
          · simp [clickStep, hnone]
          · simp [hnone] at hm
        simp only [List.foldl_cons, hstep, List.filter_cons, hm]
        rw [ih acc]
        simp

/-- C5: on a pointer button press the dispatch scans the whole registry in
order and resolves to the last matching target: the resolved handler is
the handler of the final element of the match-filtered registry, and the
button-press branch of `handle_pointer_event` acts on exactly that
handler. -/
theorem dispatch_last_match (ts : List ClickTarget) (p : ℚ × ℚ) :
    resolveClick (some p) ts =
      ((ts.filter fun t => (process_click t p).isSome).getLast?).map
        ClickTarget.handler
    ∧ (∀ (s : Surface) (ok : Bool), s.pointer_location = some p →
        s.click_targets = ts →
        handle_pointer_event ok s PointerEvent.buttonPressed =
          match ((ts.filter fun t =>
              (process_click t p).isSome).getLast?).map ClickTarget.handler with
          | some ClickHandler.Exit => ({ s with should_exit := true }, none)
          | some (ClickHandler.RunCommand cmd) =>
              (s, some ["/bin/sh", "-c", cmd])
          | none => (s, none)) := by
  have hres : resolveClick (some p) ts =
      ((ts.filter fun t => (process_click t p).isSome).getLast?).map
        ClickTarget.handler := by
    unfold resolveClick
    rw [foldl_clickStep_some p ts none]
    cases (ts.filter fun t => (process_click t p).isSome).getLast? <;> simp
  refine ⟨hres, ?_⟩
  intro s ok hloc hts
  unfold handle_pointer_event
  rw [hloc, hts, hres]

/-- Witness for `dispatch_last_match`: a click inside two overlapping
targets dispatches the later-appended target's handler (the second
target's command, not the first target's `Exit`). -/
theorem dispatch_last_match_witness :
    handle_pointer_event true
        { args := ⟨"m", [], "error", false⟩,
          next_render_event := none,
          dimensions := (100, 32), pointer_location := some ((5 : ℚ), (5 : ℚ)),
          should_exit := false,
          click_targets :=
            [⟨(0, 0), (20, 20), ClickHandler.Exit⟩,
             ⟨(0, 0), (10, 10), ClickHandler.RunCommand "true"⟩] }
        PointerEvent.buttonPressed =
      ({ args := ⟨"m", [], "error", false⟩,
         next_render_event := none,
         dimensions := (100, 32), pointer_location := some ((5 : ℚ), (5 : ℚ)),
         should_exit := false,
         click_targets :=
           [⟨(0, 0), (20, 20), ClickHandler.Exit⟩,
            ⟨(0, 0), (10, 10), ClickHandler.RunCommand "true"⟩] },
       some ["/bin/sh", "-c", "true"]) := by
  have h := (dispatch_last_match
      [⟨(0, 0), (20, 20), ClickHandler.Exit⟩,
       ⟨(0, 0), (10, 10), ClickHandler.RunCommand "true"⟩]
      ((5 : ℚ), (5 : ℚ))).2
      { args := ⟨"m", [], "error", false⟩,
        next_render_event := none,
        dimensions := (100, 32), pointer_location := some ((5 : ℚ), (5 : ℚ)),
        should_exit := false,
        click_targets :=
          [⟨(0, 0), (20, 20), ClickHandler.Exit⟩,
           ⟨(0, 0), (10, 10), ClickHandler.RunCommand "true"⟩] }
      true rfl rfl
  rw [h]
  norm_num [process_click, List.filter]

/-- C8: when a button press resolves, an `Exit` handler sets `should_exit`
and changes nothing else (no command spawned); a `RunCommand cmd` handler
spawns `/bin/sh -c cmd` and leaves the surface state unchanged; and the
outcome of the spawn (success or failure, which the source only logs)
never influences the resulting state. -/
theorem dispatch_effects (s : Surface) (ok : Bool) (p : ℚ × ℚ)
    (hloc : s.pointer_location = some p) :
    (resolveClick (some p) s.click_targets = some ClickHandler.Exit →
      handle_pointer_event ok s PointerEvent.buttonPressed =
        ({ s with should_exit := true }, none))
    ∧ (∀ cmd,
        resolveClick (some p) s.click_targets =
            some (ClickHandler.RunCommand cmd) →
        handle_pointer_event ok s PointerEvent.buttonPressed =
          (s, some ["/bin/sh", "-c", cmd]))
    ∧ (∀ ok2, handle_pointer_event ok s PointerEvent.buttonPressed =
        handle_pointer_event ok2 s PointerEvent.buttonPressed) := by
  refine ⟨?_, ?_, ?_⟩
  · intro hres
    unfold handle_pointer_event
    rw [hloc, hres]
  · intro cmd hres
    unfold handle_pointer_event
    rw [hloc, hres]
  · intro ok2
    rfl

/-- Witness for `dispatch_effects`: clicking inside an `Ignore` button
bound to the command `true` spawns `/bin/sh -c true` and does not alter
`should_exit`; clicking inside the dismiss target sets `should_exit` and
spawns nothing. -/
theorem dispatch_effects_witness :
    handle_pointer_event false
        { args := ⟨"m", [], "error", false⟩,
          next_render_event := none,
          dimensions := (100, 32), pointer_location := some ((5 : ℚ), (5 : ℚ)),
          should_exit := false,
          click_targets := [⟨(0, 0), (10, 10), ClickHandler.RunCommand "true"⟩] }
        PointerEvent.buttonPressed =
      ({ args := ⟨"m", [], "error", false⟩,
         next_render_event := none,
         dimensions := (100, 32), pointer_location := some ((5 : ℚ), (5 : ℚ)),
         should_exit := false,
         click_targets :=
           [⟨(0, 0), (10, 10), ClickHandler.RunCommand "true"⟩] },
       some ["/bin/sh", "-c", "true"])
    ∧ handle_pointer_event true
        { args := ⟨"m", [], "error", false⟩,
          next_render_event := none,
          dimensions := (100, 32), pointer_location := some ((5 : ℚ), (5 : ℚ)),
          should_exit := false,
          click_targets := [⟨(0, 0), (10, 10), ClickHandler.Exit⟩] }
        PointerEvent.buttonPressed =
      ({ args := ⟨"m", [], "error", false⟩,
         next_render_event := none,
         dimensions := (100, 32), pointer_location := some ((5 : ℚ), (5 : ℚ)),
         should_exit := true,
         click_targets := [⟨(0, 0), (10, 10), ClickHandler.Exit⟩] },
       none) := by
  constructor
  · exact (dispatch_effects
        { args := ⟨"m", [], "error", false⟩,
          next_render_event := none,
          dimensions := (100, 32), pointer_location := some ((5 : ℚ), (5 : ℚ)),
          should_exit := false,
          click_targets := [⟨(0, 0), (10, 10), ClickHandler.RunCommand "true"⟩] }
        false ((5 : ℚ), (5 : ℚ)) rfl).2.1 "true"
      (by norm_num [resolveClick, clickStep, process_click, List.foldl])
  · exact (dispatch_effects
        { args := ⟨"m", [], "error", false⟩,
          next_render_event := none,
          dimensions := (100, 32), pointer_location := some ((5 : ℚ), (5 : ℚ)),
          should_exit := false,
          click_targets := [⟨(0, 0), (10, 10), ClickHandler.Exit⟩] }
        true ((5 : ℚ), (5 : ℚ)) rfl).1
      (by norm_num [resolveClick, clickStep, process_click, List.foldl])

/-- C10: a button press delivered before any `Enter` or `Motion` event has
recorded a pointer location dispatches nothing: no handler runs, no command
is spawned, and the surface state is unchanged. -/
theorem press_without_location (s : Surface) (ok : Bool)
    (hloc : s.pointer_location = none) :
    handle_pointer_event ok s PointerEvent.buttonPressed = (s, none) := by
  unfold handle_pointer_event
  rw [hloc]
  unfold resolveClick
  rw [foldl_clickStep_none]

/-- Witness for `press_without_location`: a freshly constructed surface
(pointer location still `none`, as in `Surface::new`) with a populated
registry ignores a button press. -/
theorem press_without_location_witness :
    handle_pointer_event true
        { args := ⟨"m", [], "error", false⟩,
          next_render_event := none,
          dimensions := (100, 32), pointer_location := none,
          should_exit := false,
          click_targets := [⟨(0, 0), (10, 10), ClickHandler.Exit⟩] }
        PointerEvent.buttonPressed =
      ({ args := ⟨"m", [], "error", false⟩,
         next_render_event := none,
         dimensions := (100, 32), pointer_location := none,
         should_exit := false,
         click_targets := [⟨(0, 0), (10, 10), ClickHandler.Exit⟩] },
       none) := by
  exact press_without_location
    { args := ⟨"m", [], "error", false⟩,
      next_render_event := none,
      dimensions := (100, 32), pointer_location := none,
      should_exit := false,
      click_targets := [⟨(0, 0), (10, 10), ClickHandler.Exit⟩] }
    true rfl

lemma layoutRun_length (height : ℕ) (text_h : ℚ) (measure : ℚ → String → ℕ) :
    ∀ (c : ℕ) (items : List (String × ClickHandler)),
      (layoutRun height text_h measure c items).length = items.length := by
  intro c items
  induction items generalizing c with
  | nil => rfl
  | cons item rest ih => simp [layoutRun, ih]

lemma newTargets_length (measure : ℚ → String → ℕ) (s : Surface) :
    (newTargets measure s).length = s.args.buttons.length + 1 := by
  simp [newTargets, drawItems, layoutRun_length]

/-- Repeated redraw passes: `draw` invoked `k` times in a row (as happens
once per `Configure` event the outer loop consumes), always with a free
pool buffer. -/
def drawIter (measure : ℚ → String → ℕ) : ℕ → Surface → Surface
  | 0, s => s
  | k + 1, s => drawIter measure k (draw true measure s).1

lemma drawIter_targets_length (measure : ℚ → String → ℕ) :
    ∀ (k : ℕ) (s : Surface),
      (drawIter measure k s).click_targets.length =
        s.click_targets.length + k * (s.args.buttons.length + 1) := by
  intro k
  induction k with
  | zero => intro s; simp [drawIter]
  | succ k ih =>
      intro s
      have hargs : (draw true measure s).1.args = s.args := rfl
      have hlen : (draw true measure s).1.click_targets.length =
          s.click_targets.length + (s.args.buttons.length + 1) := by
        simp [draw, newTargets_length]
      calc (drawIter measure (k + 1) s).click_targets.length
          = (drawIter measure k (draw true measure s).1).click_targets.length := rfl
        _ = (draw true measure s).1.click_targets.length +
              k * ((draw true measure s).1.args.buttons.length + 1) :=
            ih (draw true measure s).1
        _ = s.click_targets.length + (k + 1) * (s.args.buttons.length + 1) := by
            rw [hargs, hlen]; ring

/-- C7: a redraw pass (with a free pool buffer) appends its newly computed
click targets to the registry without clearing it: the registry after
`draw` is the old registry followed by exactly `n + 1` fresh targets
(dismiss first), no earlier entry is removed or modified, and `k`
consecutive redraws grow the registry by `k * (n + 1)` entries. -/
theorem click_registry_append (s : Surface) (measure : ℚ → String → ℕ) :
    (draw true measure s).1.click_targets =
      s.click_targets ++ newTargets measure s
    ∧ (newTargets measure s).length = s.args.buttons.length + 1
    ∧ (newTargets measure s).head?.map ClickTarget.handler =
        some ClickHandler.Exit
    ∧ (∀ i : ℕ, i < s.click_targets.length →
        (draw true measure s).1.click_targets[i]? = s.click_targets[i]?)
    ∧ (∀ k : ℕ, (drawIter measure k s).click_targets.length =
        s.click_targets.length + k * (s.args.buttons.length + 1)) := by
  refine ⟨rfl, newTargets_length measure s, ?_, ?_, ?_⟩
  · simp [newTargets, drawItems, layoutRun, drawButton]
  · intro i hi
    have : (draw true measure s).1.click_targets =
        s.click_targets ++ newTargets measure s := rfl
    rw [this, List.getElem?_append, if_pos hi]
  · exact fun k => drawIter_targets_length measure k s

/-- Witness for `click_registry_append`: a surface with one configured
button and an empty registry holds 4 targets after two redraws, and a
pre-existing registry entry survives a redraw unmodified. -/
theorem click_registry_append_witness :
    (drawIter (fun _ _ => 10) 2
        { args := ⟨"m", [⟨"Ignore", "true"⟩], "error", false⟩,
          next_render_event := none,
          dimensions := (400, 32), pointer_location := none,
          should_exit := false,
          click_targets := [] }).click_targets.length = 4
    ∧ (draw true (fun _ _ => 10)
        { args := ⟨"m", [], "error", false⟩,
          next_render_event := none,
          dimensions := (400, 32), pointer_location := none,
          should_exit := false,
          click_targets := [⟨(0, 0), (5, 5), ClickHandler.Exit⟩] }).1.click_targets[0]?
      = some ⟨(0, 0), (5, 5), ClickHandler.Exit⟩ := by
  constructor
  · have h := (click_registry_append
        { args := ⟨"m", [⟨"Ignore", "true"⟩], "error", false⟩,
          next_render_event := none,
          dimensions := (400, 32), pointer_location := none,
          should_exit := false,
          click_targets := [] } (fun _ _ => 10)).2.2.2.2 2
    simpa using h
  · have h := (click_registry_append
        { args := ⟨"m", [], "error", false⟩,
          next_render_event := none,
          dimensions := (400, 32), pointer_location := none,
          should_exit := false,
          click_targets := [⟨(0, 0), (5, 5), ClickHandler.Exit⟩] }
        (fun _ _ => 10)).2.2.2.1 0 (by decide)
    simpa using h

/-- C6 counterexample: at the floating window's default height 240
(main.rs line 481) the shared `Surface::draw` — which window mode invokes
at line 621 — computes text height `min(max_text_size, H/2) = 16`, not the
uncapped `H/2 = 120` the claim states for window mode. -/
theorem text_height_window_counterexample :
    textHeight 240 = 16 ∧ ((240 : ℚ) / 2 = 120) ∧ textHeight 240 ≠ (240 : ℚ) / 2 := by
  refine ⟨?_, by norm_num, ?_⟩ <;> norm_num [textHeight, max_text_size]

/-- C6 (amended): the text height used for layout and rasterization is
`min(max_text_size, H/2)` in both presentation modes, because bar mode and
window mode call the same `Surface::draw`. -/
theorem text_height_min (H : ℕ) :
    textHeight H = min max_text_size ((H : ℚ) / 2) := by
  unfold textHeight
  by_cases h : (H : ℚ) / 2 > max_text_size
  · rw [if_pos h, min_eq_left (le_of_lt h)]
  · push_neg at h
    rw [if_neg (not_lt.mpr h), min_eq_right h]

lemma wrapSub_of_le (a b : ℕ) (ha : a < USIZE) (hb : b ≤ a) :
    wrapSub a b = a - b := by
  have hbU : b < USIZE := lt_of_le_of_lt hb ha
  unfold wrapSub
  rw [Nat.mod_eq_of_lt ha, Nat.mod_eq_of_lt hbU]
  have h1 : a + (USIZE - b) = (a - b) + USIZE := by omega
  rw [h1, Nat.add_mod_right, Nat.mod_eq_of_lt (by omega)]

/-- The packing fits: at every step of the right-to-left layout the cursor
is large enough that `cursor - button_width - horizontal_padding` does not
underflow. -/
def fitsRun (text_h : ℚ) (measure : ℚ → String → ℕ) :
    ℕ → List (String × ClickHandler) → Bool
  | _, [] => true
  | rmp, item :: rest =>
      decide (measure text_h item.1 + 2 * horizontal_padding +
          horizontal_padding ≤ rmp) &&
        fitsRun text_h measure
          (rmp - (measure text_h item.1 + 2 * horizontal_padding) -
            horizontal_padding) rest

lemma layoutRun_fits (height : ℕ) (text_h : ℚ) (measure : ℚ → String → ℕ)
    (hH : height < USIZE) (hvp : vertical_padding * 2 ≤ height) :
    ∀ (items : List (String × ClickHandler)) (c : ℕ), c < USIZE →
      fitsRun text_h measure c items = true →
      (layoutRun height text_h measure c items).map LaidButton.handler =
          items.map Prod.snd
      ∧ (layoutRun height text_h measure c items).map (fun b => b.size.1) =
          items.map (fun it => measure text_h it.1 + 2 * horizontal_padding)
      ∧ (∀ b ∈ layoutRun height text_h measure c items,
          b.block_pos.2 = vertical_padding
          ∧ b.size.2 = height - vertical_padding * 2
          ∧ b.text_pos.1 = b.block_pos.1 + horizontal_padding
          ∧ b.text_pos.2 =
              f32ToUsize ((((height - vertical_padding * 2 : ℕ) : ℚ) - text_h) / 2)
          ∧ b.block_pos.1 + b.size.1 + horizontal_padding ≤ c)
      ∧ (∀ b, (layoutRun height text_h measure c items).head? = some b →
          b.block_pos.1 + b.size.1 + horizontal_padding = c)
      ∧ List.Chain'
          (fun a b => b.block_pos.1 + b.size.1 + horizontal_padding =
            a.block_pos.1)
          (layoutRun height text_h measure c items)
      ∧ List.Pairwise
          (fun a b => b.block_pos.1 + b.size.1 < a.block_pos.1)
          (layoutRun height text_h measure c items) := by
  intro items
  induction items with
  | nil =>
      intro c _ _
      simp [layoutRun]
  | cons item rest ih =>
      intro c hc hfit
      simp only [fitsRun, Bool.and_eq_true, decide_eq_true_eq] at hfit
      obtain ⟨hstep, hrest⟩ := hfit
      have hhp : (0 : ℕ) < horizontal_padding := by decide
      have h3 : wrapSub height (vertical_padding * 2) =
          height - vertical_padding * 2 := wrapSub_of_le _ _ hH hvp
      have h1 : wrapSub c (measure text_h item.1 + 2 * horizontal_padding) =
          c - (measure text_h item.1 + 2 * horizontal_padding) :=
        wrapSub_of_le _ _ hc (by omega)
      have h2 : wrapSub (c - (measure text_h item.1 + 2 * horizontal_padding))
          horizontal_padding =
          c - (measure text_h item.1 + 2 * horizontal_padding) -
            horizontal_padding :=
        wrapSub_of_le _ _ (by omega) (by omega)
      have hb0 : drawButton height text_h measure c item.1 item.2 =
          ⟨(c - (measure text_h item.1 + 2 * horizontal_padding) -
              horizontal_padding, vertical_padding),
           (measure text_h item.1 + 2 * horizontal_padding,
            height - vertical_padding * 2),
           (c - (measure text_h item.1 + 2 * horizontal_padding) -
              horizontal_padding + horizontal_padding,
            f32ToUsize ((((height - vertical_padding * 2 : ℕ) : ℚ) - text_h) / 2)),
           item.2⟩ := by
        simp [drawButton, h1, h2, h3]
      have hx : c - (measure text_h item.1 + 2 * horizontal_padding) -
          horizontal_padding < USIZE := by omega
      obtain ⟨ihmap, ihsizes, ihmem, ihhead, ihchain, ihpair⟩ :=
        ih (c - (measure text_h item.1 + 2 * horizontal_padding) -
          horizontal_padding) hx hrest
      have hrun : layoutRun height text_h measure c (item :: rest) =
          drawButton height text_h measure c item.1 item.2 ::
            layoutRun height text_h measure
              (c - (measure text_h item.1 + 2 * horizontal_padding) -
                horizontal_padding) rest := by
        simp only [layoutRun]
        rw [hb0]
      rw [hrun, hb0]
      refine ⟨?_, ?_, ?_, ?_, ?_, ?_⟩
      · simp only [List.map_cons, ihmap]
      · simp only [List.map_cons, ihsizes]
      · intro b hb
        rcases List.mem_cons.mp hb with hb0' | hbr
        · subst hb0'
          refine ⟨rfl, rfl, rfl, rfl, ?_⟩
          show c - (measure text_h item.1 + 2 * horizontal_padding) -
              horizontal_padding +
              (measure text_h item.1 + 2 * horizontal_padding) +
              horizontal_padding ≤ c
          omega
        · obtain ⟨p1, p2, p3, p4, p5⟩ := ihmem b hbr
          exact ⟨p1, p2, p3, p4, by omega⟩
      · intro b hb
        have hbeq : (⟨(c - (measure text_h item.1 + 2 * horizontal_padding) -
              horizontal_padding, vertical_padding),
           (measure text_h item.1 + 2 * horizontal_padding,
            height - vertical_padding * 2),
           (c - (measure text_h item.1 + 2 * horizontal_padding) -
              horizontal_padding + horizontal_padding,
            f32ToUsize ((((height - vertical_padding * 2 : ℕ) : ℚ) - text_h) / 2)),
           item.2⟩ : LaidButton) = b := by
          simpa using hb
        rw [← hbeq]
        show c - (measure text_h item.1 + 2 * horizontal_padding) -
            horizontal_padding +
            (measure text_h item.1 + 2 * horizontal_padding) +
            horizontal_padding = c
        omega
      · rw [List.chain'_cons']
        constructor
        · intro b hb
          have hb' : (layoutRun height text_h measure
              (c - (measure text_h item.1 + 2 * horizontal_padding) -
                horizontal_padding) rest).head? = some b := by
            simpa using hb
          have hhd := ihhead b hb'
          show b.block_pos.1 + b.size.1 + horizontal_padding =
            c - (measure text_h item.1 + 2 * horizontal_padding) -
              horizontal_padding
          omega
        · exact ihchain
      · rw [List.pairwise_cons]
        constructor
        · intro b hbr
          have hmemb := (ihmem b hbr).2.2.2.2
          show b.block_pos.1 + b.size.1 <
            c - (measure text_h item.1 + 2 * horizontal_padding) -
              horizontal_padding
          omega
        · exact ihpair

/-- The full layout `draw` performs for a surface of width `W`, height `H`
and configuration `args`: the dismiss control followed by the configured
buttons, packed right-to-left from `W` at text height `textHeight H`.
`newTargets` is exactly this list with the text positions dropped. -/
def layoutOf (W H : ℕ) (measure : ℚ → String → ℕ) (args : Args) :
    List LaidButton :=
  layoutRun H (textHeight H) measure W (drawItems args)

/-- C3 counterexample: on a 25×32 surface with no configured buttons and a
font measuring every label at width 10, the single laid-out dismiss target
is not inside the surface bounds (the `usize` cursor subtraction wraps
below zero, so `block_x + block_width > W`), and its label's glyph origin
is not vertically centered within the block: the code computes the text
`y` from the canvas top, omitting the block's own top offset
`vertical_padding`. -/
theorem layout_claim_counterexample :
    (layoutOf 25 32 (fun _ _ => 10) ⟨"m", [], "error", false⟩).length = 1
    ∧ (∀ b ∈ layoutOf 25 32 (fun _ _ => 10) ⟨"m", [], "error", false⟩,
        ¬ (b.block_pos.1 + b.size.1 ≤ 25)
        ∧ b.text_pos.2 ≠
            b.block_pos.2 + f32ToUsize (((b.size.2 : ℚ) - textHeight 32) / 2)) := by
  have hsub : wrapSub 32 (vertical_padding * 2) = 28 := by decide
  have hb : drawButton 32 (textHeight 32) (fun _ _ => 10) 25 "x"
      ClickHandler.Exit =
      ⟨(wrapSub (wrapSub 25 30) 10, vertical_padding),
       (30, 28),
       (wrapSub (wrapSub 25 30) 10 + horizontal_padding,
        f32ToUsize ((((28 : ℕ) : ℚ) - textHeight 32) / 2)),
       ClickHandler.Exit⟩ := by
    unfold drawButton
    rw [hsub]
    norm_num [horizontal_padding]
  have hrun : layoutOf 25 32 (fun _ _ => 10) ⟨"m", [], "error", false⟩ =
      [⟨(wrapSub (wrapSub 25 30) 10, vertical_padding),
        (30, 28),
        (wrapSub (wrapSub 25 30) 10 + horizontal_padding,
         f32ToUsize ((((28 : ℕ) : ℚ) - textHeight 32) / 2)),
        ClickHandler.Exit⟩] := by
    unfold layoutOf drawItems
    simp only [List.map_nil]
    rw [show ((("x", ClickHandler.Exit) : String × ClickHandler) :: []) =
      [(("x" : String), ClickHandler.Exit)] from rfl]
    simp only [layoutRun]
    rw [hb]
  rw [hrun]
  refine ⟨rfl, ?_⟩
  intro b hbmem
  have hbeq : b = (⟨(wrapSub (wrapSub 25 30) 10, vertical_padding),
       (30, 28),
       (wrapSub (wrapSub 25 30) 10 + horizontal_padding,
        f32ToUsize ((((28 : ℕ) : ℚ) - textHeight 32) / 2)),
       ClickHandler.Exit⟩ : LaidButton) := by
    simpa using hbmem
  subst hbeq
  constructor
  · show ¬ (wrapSub (wrapSub 25 30) 10 + 30 ≤ 25)
    decide
  · show f32ToUsize ((((28 : ℕ) : ℚ) - textHeight 32) / 2) ≠
      vertical_padding + f32ToUsize ((((28 : ℕ) : ℚ) - textHeight 32) / 2)
    have hvp : vertical_padding = 2 := rfl
    rw [hvp]
    omega

/-- C3 (amended): for every surface `(W, H)` with `W, H` in `usize` range,
`H ≥ 2 * vertical_padding`, and a button list whose right-to-left packing
fits in the width (no cursor underflow), one layout pass emits exactly
`N + 1` blocks — the dismiss control first (handler `Exit`), then the
configured buttons in original order — packed right-to-left from
`cursor_x = W`: each block has width `tw + 2 * horizontal_padding`, top-left
`(cursor_x - button_width - horizontal_padding, vertical_padding)`, size
`(button_width, H - 2 * vertical_padding)`, its label's glyph origin at
`block_x + horizontal_padding` horizontally and, vertically, at
`floor((H - 2 * vertical_padding - text_h) / 2)` measured from the surface
top (centered in the block's height but not offset by the block's top
edge), and the cursor advances to `block_x`.  The blocks are strictly
right-to-left, non-overlapping, fully inside the surface bounds, and the
dismiss block is the rightmost. -/
theorem layout_engine_spec (W H : ℕ) (measure : ℚ → String → ℕ) (args : Args)
    (hW : W < USIZE) (hH : H < USIZE) (hvp : vertical_padding * 2 ≤ H)
    (hfit : fitsRun (textHeight H) measure W (drawItems args) = true) :
    (layoutOf W H measure args).length = args.buttons.length + 1
    ∧ (layoutOf W H measure args).map LaidButton.handler =
        ClickHandler.Exit ::
          args.buttons.map (fun b => ClickHandler.RunCommand b.action)
    ∧ (layoutOf W H measure args).map (fun b => b.size.1) =
        (measure (textHeight H) "x" + 2 * horizontal_padding) ::
          args.buttons.map
            (fun b => measure (textHeight H) b.text + 2 * horizontal_padding)
    ∧ (∀ b, (layoutOf W H measure args).head? = some b →
        b.handler = ClickHandler.Exit
        ∧ b.block_pos.1 + b.size.1 + horizontal_padding = W)
    ∧ (∀ b ∈ layoutOf W H measure args,
        b.block_pos.2 = vertical_padding
        ∧ b.size.2 = H - vertical_padding * 2
        ∧ b.text_pos.1 = b.block_pos.1 + horizontal_padding
        ∧ b.text_pos.2 =
            f32ToUsize ((((H - vertical_padding * 2 : ℕ) : ℚ) - textHeight H) / 2)
        ∧ b.block_pos.1 + b.size.1 ≤ W
        ∧ b.block_pos.2 + b.size.2 ≤ H)
    ∧ List.Chain'
        (fun a b => b.block_pos.1 + b.size.1 + horizontal_padding =
          a.block_pos.1) (layoutOf W H measure args)
    ∧ List.Pairwise
        (fun a b => b.block_pos.1 + b.size.1 < a.block_pos.1)
        (layoutOf W H measure args) := by
  obtain ⟨hmap, hsizes, hmem, hhead, hchain, hpair⟩ :=
    layoutRun_fits H (textHeight H) measure hH hvp (drawItems args) W hW hfit
  have hvp' : vertical_padding * 2 ≤ H := hvp
  refine ⟨?_, ?_, ?_, ?_, ?_, hchain, hpair⟩
  · unfold layoutOf
    rw [layoutRun_length]
    simp [drawItems]
  · unfold layoutOf
    rw [hmap]
    simp [drawItems]
  · unfold layoutOf
    rw [hsizes]
    simp [drawItems]
  · intro b hb
    refine ⟨?_, hhead b hb⟩
    have h1 : ((layoutOf W H measure args).map LaidButton.handler).head? =
        some b.handler := by
      rw [List.head?_map]
      unfold layoutOf at hb ⊢
      rw [hb]
      rfl
    rw [show (layoutOf W H measure args).map LaidButton.handler =
        ClickHandler.Exit ::
          args.buttons.map (fun b => ClickHandler.RunCommand b.action) from by
      unfold layoutOf; rw [hmap]; simp [drawItems]] at h1
    simpa using h1.symm
  · intro b hb
    obtain ⟨p1, p2, p3, p4, p5⟩ := hmem b hb
    have hvpos : (0 : ℕ) < horizontal_padding := by decide
    refine ⟨p1, p2, p3, p4, by omega, ?_⟩
    rw [p1, p2]
    have : vertical_padding * 2 ≤ H := hvp'
    omega

/-- Witness for `layout_engine_spec`: the scenario surface — 400×32, two
configured buttons, every label measuring 10 pixels wide — lays out
exactly 3 targets. -/
theorem layout_engine_spec_witness :
    (layoutOf 400 32 (fun _ _ => 10)
        ⟨"Disk full", [⟨"Ignore", "true"⟩, ⟨"Fix", "disk-fix"⟩], "error",
          false⟩).length = 2 + 1 := by
  exact (layout_engine_spec 400 32 (fun _ _ => 10)
      ⟨"Disk full", [⟨"Ignore", "true"⟩, ⟨"Fix", "disk-fix"⟩], "error", false⟩
      (by decide) (by decide) (by decide) (by decide)).1

/-- The five kinds of argument token the match in args.rs lines 25-58
distinguishes. -/
inductive TokenKind where
  | msgFlag
  | typeFlag
  | detailFlag
  | buttonFlag
  | unknown
deriving DecidableEq, Repr

/-- The arm dispatch of the Rust `match args.next().as_deref()` (args.rs
lines 25-58): which arm a token selects.  The arms are disjoint string
literals, so testing them in order is equivalent. -/
def classify (arg : String) : TokenKind :=
  if arg = "-m" ∨ arg = "--message" then TokenKind.msgFlag
  else if arg = "-t" ∨ arg = "--type" then TokenKind.typeFlag
  else if arg = "-l" ∨ arg = "--detailed-message" then TokenKind.detailFlag
  else if arg = "-b" ∨ arg = "--button" ∨ arg = "-B" ∨
      arg = "--button-no-terminal" then TokenKind.buttonFlag
  else TokenKind.unknown

/-- args.rs lines 24-72: the argument loop of `parse`, with the running
parser state (`message`, `message_type`, `buttons`, `detailed_message`) as
accumulators.  Each arm consumes the tokens `Iterator::next` would. -/
def parseLoop : List String → Option String → Option String →
    List ArgButton → Bool → Except String Args
  | [], message, message_type, buttons, detailed_message =>
      match message with
      | some m =>
          Except.ok ⟨m, buttons, message_type.getD "error", detailed_message⟩
      | none => Except.error "missing required arg message (-m/--message)"
  | arg :: rest, message, message_type, buttons, detailed_message =>
      match classify arg with
      | TokenKind.msgFlag =>
          match rest with
          | [] => Except.error "missing required arg message (-m/--message)"
          | v :: rest2 =>
              parseLoop rest2 (some v) message_type buttons detailed_message
      | TokenKind.typeFlag =>
          match rest with
          | [] => Except.error "missing required arg type (-t/--type)"
          | v :: rest2 =>
              parseLoop rest2 message (some v) buttons detailed_message
      | TokenKind.detailFlag =>
          parseLoop rest message message_type buttons true
      | TokenKind.buttonFlag =>
          match rest with
          | [] => Except.error "button missing text"
          | t :: rest2 =>
              match rest2 with
              | [] => Except.error "button missing action"
              | a :: rest3 =>
                  parseLoop rest3 message message_type (buttons ++ [⟨t, a⟩])
                    detailed_message
      | TokenKind.unknown =>
          Except.error ("invalid arg \x27" ++ arg ++ "\x27")

/-- args.rs line 15 and 22: `parse` skips the binary name and runs the
argument loop with empty state. -/
def parse (argv : List String) : Except String Args :=
  parseLoop (argv.drop 1) none none [] false

/-- Whether a parse outcome is a fatal configuration error. -/
def parseIsError : Except String Args → Bool
  | Except.error _ => true
  | Except.ok _ => false

/-- The failure condition exactly as claim C9 states it (the claim side of
the refinement comparison, written from the spec's words, not from the
code): parsing fails exactly when the message flag is absent or lacks a
value, an unknown flag appears, or a button flag lacks its text or its
action.  A type flag is a known flag and the claim lists no failure for
it, so here it merely consumes its value when one is present.  The Boolean
argument tracks whether a message has been seen. -/
def claimFailCond : List String → Bool → Bool
  | [], seenMessage => !seenMessage
  | arg :: rest, seenMessage =>
      match classify arg with
      | TokenKind.msgFlag =>
          match rest with
          | [] => true
          | _ :: rest2 => claimFailCond rest2 true
      | TokenKind.typeFlag =>
          match rest with
          | [] => false
          | _ :: rest2 => claimFailCond rest2 seenMessage
      | TokenKind.detailFlag => claimFailCond rest seenMessage
      | TokenKind.buttonFlag =>
          match rest with
          | [] => true
          | _ :: rest2 =>
              match rest2 with
              | [] => true
              | _ :: rest3 => claimFailCond rest3 seenMessage
      | TokenKind.unknown => true

/-- The amended failure condition: as `claimFailCond`, plus the failure
the code actually has for a type flag (`-t` or `--type`) lacking its
value. -/
def parseFailCond : List String → Bool → Bool
  | [], seenMessage => !seenMessage
  | arg :: rest, seenMessage =>
      match classify arg with
      | TokenKind.msgFlag =>
          match rest with
          | [] => true
          | _ :: rest2 => parseFailCond rest2 true
      | TokenKind.typeFlag =>
          match rest with
          | [] => true
          | _ :: rest2 => parseFailCond rest2 seenMessage
      | TokenKind.detailFlag => parseFailCond rest seenMessage
      | TokenKind.buttonFlag =>
          match rest with
          | [] => true
          | _ :: rest2 =>
              match rest2 with
              | [] => true
              | _ :: rest3 => parseFailCond rest3 seenMessage
      | TokenKind.unknown => true

/-- main.rs lines 309-327: the start of `main`.  A parse error is printed
and the process exits with status 1 before any window is created; on
success, a requested detailed message is read from stdin, and a failed
read only warns (the configuration is still used, with empty detailed
contents).  `stdinRead` is the outcome of `read_to_string`. -/
def mainConfig (argv : List String) (stdinRead : Option String) :
    Except ℕ (Args × String) :=
  match parse argv with
  | Except.error _ => Except.error 1
  | Except.ok a =>
      if a.detailed_message then
        match stdinRead with
        | some contents => Except.ok (a, contents)
        | none => Except.ok (a, "")
      else Except.ok (a, "")

lemma parseLoop_isError_aux :
    ∀ (n : ℕ) (l : List String), l.length ≤ n →
    ∀ (msg mt : Option String) (btns : List ArgButton) (dm : Bool),
      parseIsError (parseLoop l msg mt btns dm) = parseFailCond l msg.isSome := by
  intro n
  induction n with
  | zero =>
      intro l hl msg mt btns dm
      have hnil : l = [] := List.length_eq_zero.mp (Nat.le_zero.mp hl)
      subst hnil
      cases msg <;> rfl
  | succ n ih =>
      intro l hl msg mt btns dm
      cases l with
      | nil => cases msg <;> rfl
      | cons arg rest =>
          cases rest with
          | nil =>
              cases hc : classify arg with
              | msgFlag => simp [parseLoop, parseFailCond, hc, parseIsError]
              | typeFlag => simp [parseLoop, parseFailCond, hc, parseIsError]
              | detailFlag =>
                  have hgoal := ih [] (by simp) msg mt btns true
                  simp only [parseLoop, parseFailCond] at hgoal
                  simp only [parseLoop, parseFailCond, hc]
                  exact hgoal
              | buttonFlag => simp [parseLoop, parseFailCond, hc, parseIsError]
              | unknown => simp [parseLoop, parseFailCond, hc, parseIsError]
          | cons v rest2 =>
              cases rest2 with
              | nil =>
                  have h1 : ([] : List String).length ≤ n := by simp
                  have h2 : [v].length ≤ n := by
                    simp only [List.length_cons, List.length_nil] at hl ⊢
                    omega
                  cases hc : classify arg with
                  | msgFlag =>
                      simp only [parseLoop, parseFailCond, hc]
                      simpa using ih [] h1 (some v) mt btns dm
                  | typeFlag =>
                      simp only [parseLoop, parseFailCond, hc]
                      exact ih [] h1 msg (some v) btns dm
                  | detailFlag =>
                      have hgoal := ih [v] h2 msg mt btns true
                      simp only [parseLoop, parseFailCond] at hgoal
                      simp only [parseLoop, parseFailCond, hc]
                      exact hgoal
                  | buttonFlag => simp [parseLoop, parseFailCond, hc, parseIsError]
                  | unknown => simp [parseLoop, parseFailCond, hc, parseIsError]
              | cons v1 rest3 =>
                  have h1 : (v1 :: rest3).length ≤ n := by
                    simp only [List.length_cons] at hl ⊢
                    omega
                  have h2 : (v :: v1 :: rest3).length ≤ n := by
                    simp only [List.length_cons] at hl ⊢
                    omega
                  have h3 : rest3.length ≤ n := by
                    simp only [List.length_cons] at hl
                    omega
                  cases hc : classify arg with
                  | msgFlag =>
                      simp only [parseLoop, parseFailCond, hc]
                      simpa using ih (v1 :: rest3) h1 (some v) mt btns dm
                  | typeFlag =>
                      simp only [parseLoop, parseFailCond, hc]
                      exact ih (v1 :: rest3) h1 msg (some v) btns dm
                  | detailFlag =>
                      have hgoal := ih (v :: v1 :: rest3) h2 msg mt btns true
                      simp only [parseLoop, parseFailCond] at hgoal
                      simp only [parseLoop, parseFailCond, hc]
                      exact hgoal
                  | buttonFlag =>
                      simp only [parseLoop, parseFailCond, hc]
                      exact ih rest3 h3 msg mt (btns ++ [⟨v, v1⟩]) dm
                  | unknown => simp [parseLoop, parseFailCond, hc, parseIsError]

/-- C9 counterexample: on `waysay -m hi -t` the code fails with the error
"missing required arg type", although none of the failure conditions
the claim lists holds — the message flag has its value, no unknown flag
appears, and no button flag is malformed. -/
theorem parse_claim_counterexample :
    parse ["waysay", "-m", "hi", "-t"] =
      Except.error "missing required arg type (-t/--type)"
    ∧ claimFailCond (["waysay", "-m", "hi", "-t"].drop 1) false = false := by
  constructor <;> rfl

/-- C9 (amended): parsing fails with a descriptive error exactly when the
message flag is absent or lacks a value, the type flag lacks its value, an
unknown flag appears, or a button flag lacks its text or its action
(`parseFailCond`); on any such error the process reports it and exits with
status 1 before any window is created, and otherwise parse returns the
parsed configuration; a detailed-message flag whose stdin read fails
produces only a warning, never a fatal error. -/
theorem parse_error_spec (argv : List String) :
    (parseIsError (parse argv) = parseFailCond (argv.drop 1) false)
    ∧ (∀ stdin : Option String, parseIsError (parse argv) = true →
        mainConfig argv stdin = Except.error 1)
    ∧ (∀ a, parse argv = Except.ok a → ∀ stdin : Option String,
        ∃ contents, mainConfig argv stdin = Except.ok (a, contents)) := by
  refine ⟨?_, ?_, ?_⟩
  · unfold parse
    exact parseLoop_isError_aux (argv.drop 1).length (argv.drop 1) le_rfl
      none none [] false
  · intro stdin herr
    unfold mainConfig
    cases hp : parse argv with
    | error e => rfl
    | ok a => rw [hp] at herr; simp [parseIsError] at herr
  · intro a ha stdin
    unfold mainConfig
    rw [ha]
    by_cases hd : a.detailed_message
    · cases stdin with
      | none => exact ⟨"", by simp [hd]⟩
      | some contents => exact ⟨contents, by simp [hd]⟩
    · exact ⟨"", by simp [hd]⟩

/-- Witness for `parse_error_spec`: with no message the process exits with
status 1; with `-m hi -l` and a failing stdin read the configuration is
still produced. -/
theorem parse_error_spec_witness :
    mainConfig ["waysay"] none = Except.error 1
    ∧ ∃ contents, mainConfig ["waysay", "-m", "hi", "-l"] none =
        Except.ok (⟨"hi", [], "error", true⟩, contents) := by
  constructor
  · exact (parse_error_spec ["waysay"]).2.1 none rfl
  · exact (parse_error_spec ["waysay", "-m", "hi", "-l"]).2.2
      ⟨"hi", [], "error", true⟩ (by rfl) none

end Waysay
